import Mathlib

/-!
Verification of the serial servo-command core of `arduino_pca9685_controller.ino`
(the "target-painter" repository).

The sketch receives text lines of the form `X:<angle> Y:<angle>\n` on the
serial port, parses the two angles, clamps them to `[0, 180]`, converts each
angle to a pulse width in microseconds via Arduino's integer `map`, writes the
pulse widths to PCA9685 channels 0 and 1, and answers with either
`OK X:<x> Y:<y>` or `ERROR: Invalid command format`.

The embedding below models the Arduino `String` operations used by the sketch
(`trim`, `indexOf`, `substring`, `toInt`) on `List Char`, with the C/AVR
semantics of each primitive (`isspace`-based trimming, `strstr`-style first
occurrence, unsigned-argument `substring` with its swap/clamp rules, and
`atol`-style integer parsing), and models hardware writes as the list of
`(channel, microseconds)` pairs passed to `pwm.writeMicroseconds`.
-/

namespace TargetPainter

/-- C `isspace` on the ASCII characters that Arduino `String.trim` removes:
space, tab, newline, vertical tab, form feed, carriage return. -/
def isspaceC (c : Char) : Bool :=
  c == ' ' || c == '\t' || c == '\n' || c == '\x0b' || c == '\x0c' || c == '\r'

/-- Arduino `String::trim()`: drop `isspace` characters from both ends. -/
def trimA (l : List Char) : List Char :=
  ((l.dropWhile isspaceC).reverse.dropWhile isspaceC).reverse

/-- Whether `pat` occurs at the very start of `l` (prefix test used by
`strstr`-style search). -/
def startsWithL : List Char → List Char → Bool
  | [], _ => true
  | _ :: _, [] => false
  | p :: ps, c :: cs => p == c && startsWithL ps cs

/-- Arduino `String::indexOf(String)` scanning from absolute index `i`:
index of the first occurrence of `pat`, or `-1` if it never occurs. -/
def listIndexOf (pat : List Char) : List Char → Nat → Int
  | [], i => if startsWithL pat [] then (i : Int) else -1
  | c :: rest, i =>
    if startsWithL pat (c :: rest) then (i : Int)
    else listIndexOf pat rest (i + 1)

/-- Scan helper for `charIndexFrom`: `i` is the absolute index of the head. -/
def charIndexFromAux (ch : Char) : List Char → Nat → Int
  | [], _ => -1
  | c :: rest, i => if c == ch then (i : Int) else charIndexFromAux ch rest (i + 1)

/-- Arduino `String::indexOf(char, fromIndex)`: index of the first occurrence
of `ch` at position `≥ f`, or `-1`. -/
def charIndexFrom (ch : Char) (l : List Char) (f : Nat) : Int :=
  charIndexFromAux ch (l.drop f) f

/-- Arduino `String::substring(left, right)` (both arguments `unsigned int`):
swap if `left > right`, return `""` if `left ≥ len`, clamp `right` to `len`,
and return the characters in `[left, right)`. -/
def substringA (l : List Char) (left right : Nat) : List Char :=
  let lo := if left > right then right else left
  let hi := if left > right then left else right
  if lo ≥ l.length then [] else (l.take (min hi l.length)).drop lo

/-- Conversion of a C `int`/`long` value to `unsigned int` (32-bit), as happens
when the sketch passes the signed results of `indexOf` to `substring` and
`indexOf(char, fromIndex)`. -/
def uint32 (i : Int) : Nat := (i % 4294967296).toNat

/-- Value of the maximal leading run of decimal digits, accumulating into
`acc` (the digit-consuming loop of `atol`). -/
def digitsValAux : List Char → Nat → Nat
  | [], acc => acc
  | c :: rest, acc =>
    if c.isDigit then digitsValAux rest (10 * acc + (c.toNat - 48)) else acc

/-- Arduino `String::toInt()`, i.e. C `atol`: skip leading whitespace, accept
an optional sign, read the maximal run of digits (zero digits parse as 0). -/
def toIntA (l : List Char) : Int :=
  match l.dropWhile isspaceC with
  | [] => 0
  | c :: rest =>
    if c = '-' then -(digitsValAux rest 0 : Int)
    else if c = '+' then (digitsValAux rest 0 : Int)
    else (digitsValAux (c :: rest) 0 : Int)

/-- Arduino `constrain(amt, low, high)` macro. -/
def constrain (x lo hi : Int) : Int :=
  if x < lo then lo else if x > hi then hi else x

/-- Arduino `map(x, in_min, in_max, out_min, out_max)`: linear interpolation
with C `long` division (truncation toward zero). -/
def mapA (x inMin inMax outMin outMax : Int) : Int :=
  Int.tdiv ((x - inMin) * (outMax - outMin)) (inMax - inMin) + outMin

/-- `#define SERVO_X_CHANNEL 0`. -/
def SERVO_X_CHANNEL : Nat := 0

/-- `#define SERVO_Y_CHANNEL 1`. -/
def SERVO_Y_CHANNEL : Nat := 1

/-- `#define USMIN 600`. -/
def USMIN : Int := 600

/-- `#define USMAX 2400`. -/
def USMAX : Int := 2400

/-- `setServoAngle(channel, angle)`: constrain the angle to `[0, 180]`, map it
to `[USMIN, USMAX]` microseconds, and issue `pwm.writeMicroseconds(channel,
microseconds)`; the write is modelled as the returned pair. -/
def setServoAngle (channel : Nat) (angle : Int) : Nat × Int :=
  (channel, mapA (constrain angle 0 180) 0 180 USMIN USMAX)

/-- `command.indexOf("X:")` after trimming. -/
def xIndexOf (cmd : List Char) : Int := listIndexOf ['X', ':'] cmd 0

/-- `command.indexOf("Y:")` after trimming. -/
def yIndexOf (cmd : List Char) : Int := listIndexOf ['Y', ':'] cmd 0

/-- The X value field: `command.substring(xStart, command.indexOf(' ', xStart))`
with `xStart = xIndex + 2`. -/
def xField (cmd : List Char) : List Char :=
  substringA cmd (uint32 (xIndexOf cmd + 2))
    (uint32 (charIndexFrom ' ' cmd (uint32 (xIndexOf cmd + 2))))

/-- The Y value field: `command.substring(yStart)` with `yStart = yIndex + 2`
(single-argument `substring`, i.e. up to the end of the string). -/
def yField (cmd : List Char) : List Char :=
  substringA cmd (uint32 (yIndexOf cmd + 2)) cmd.length

/-- The outcome of one `processCommand` call: the two position globals after
the call, the `pwm.writeMicroseconds` calls issued (in order), and the line
printed on the serial port. -/
structure CmdResult where
  posX : Int
  posY : Int
  writes : List (Nat × Int)
  output : String
deriving DecidableEq, Repr

/-- `processCommand(command)` acting on the globals `posX`, `posY`: trim the
line, look for the `X:` and `Y:` markers, and either parse/clamp/dispatch and
print `OK X:<x> Y:<y>`, or print `ERROR: Invalid command format`. -/
def processCommand (posX posY : Int) (command : String) : CmdResult :=
  if 0 ≤ xIndexOf (trimA command.data) ∧ 0 ≤ yIndexOf (trimA command.data) then
    { posX := constrain (toIntA (xField (trimA command.data))) 0 180
      posY := constrain (toIntA (yField (trimA command.data))) 0 180
      writes :=
        [setServoAngle SERVO_X_CHANNEL
          (constrain (toIntA (xField (trimA command.data))) 0 180),
         setServoAngle SERVO_Y_CHANNEL
          (constrain (toIntA (yField (trimA command.data))) 0 180)]
      output := "OK X:" ++ toString (constrain (toIntA (xField (trimA command.data))) 0 180)
        ++ " Y:" ++ toString (constrain (toIntA (yField (trimA command.data))) 0 180) }
  else
    { posX := posX
      posY := posY
      writes := []
      output := "ERROR: Invalid command format" }

/-- The global state touched by `serialEvent` and `loop`: the line buffer
`inputString`, the `stringComplete` flag, and the two servo positions. -/
structure MachineState where
  inputString : String
  stringComplete : Bool
  posX : Int
  posY : Int
deriving DecidableEq, Repr

/-- One iteration of the `while (Serial.available())` body of `serialEvent`:
append the received character to `inputString`, and set `stringComplete` when
the character is the newline terminator. -/
def serialEventChar (s : MachineState) (c : Char) : MachineState :=
  let s1 := { s with inputString := s.inputString.push c }
  if c = '\n' then { s1 with stringComplete := true } else s1

/-- `serialEvent()` over the queue of available bytes. -/
def serialEvent (s : MachineState) (bytes : List Char) : MachineState :=
  bytes.foldl serialEventChar s

/-- One iteration of `loop()`: when `stringComplete` is set, process the
buffered line and then clear the buffer and the flag; otherwise do nothing. -/
def loopIter (s : MachineState) : MachineState :=
  if s.stringComplete then
    { inputString := ""
      stringComplete := false
      posX := (processCommand s.posX s.posY s.inputString).posX
      posY := (processCommand s.posX s.posY s.inputString).posY }
  else s

/-- The positions after `processCommand`, as a pair (for iterating lines). -/
def step (p : Int × Int) (line : String) : Int × Int :=
  ((processCommand p.1 p.2 line).posX, (processCommand p.1 p.2 line).posY)

/-- The positions after processing a sequence of lines, starting from the
initial values `posX = 90`, `posY = 90` of the sketch. -/
def run (lines : List String) : Int × Int := lines.foldl step (90, 90)

/-- Whether `processCommand` takes the accepting branch on this line: both
markers found in the trimmed line. -/
def accepts (s : String) : Bool :=
  decide (0 ≤ xIndexOf (trimA s.data) ∧ 0 ≤ yIndexOf (trimA s.data))

/-- The clamped parsed angles of a line (meaningful on accepted lines). -/
def target (s : String) : Int × Int :=
  (constrain (toIntA (xField (trimA s.data))) 0 180,
   constrain (toIntA (yField (trimA s.data))) 0 180)

/-- Specification-side description of the position state: the clamped target
of the last accepted line, or the centered default `(90, 90)`. -/
def lastTarget (lines : List String) : Int × Int :=
  lines.foldl (fun p l => if accepts l then target l else p) (90, 90)

/-- `pat` occurs (contiguously) somewhere in `l`. -/
def occursIn (pat l : List Char) : Prop := 0 ≤ listIndexOf pat l 0

instance (pat l : List Char) : Decidable (occursIn pat l) := by
  unfold occursIn
  infer_instance

end TargetPainter

namespace TargetPainter

/-! ### Basic arithmetic lemmas about `constrain` and `map` -/

theorem constrain_mem (v : Int) :
    0 ≤ constrain v 0 180 ∧ constrain v 0 180 ≤ 180 := by
  unfold constrain
  split_ifs <;> omega

theorem constrain_of_mem {v : Int} (h0 : 0 ≤ v) (h1 : v ≤ 180) :
    constrain v 0 180 = v := by
  unfold constrain
  split_ifs <;> omega

theorem constrain_of_gt {v : Int} (h : 180 < v) : constrain v 0 180 = 180 := by
  unfold constrain
  split_ifs <;> omega

theorem constrain_of_lt {v : Int} (h : v < 0) : constrain v 0 180 = 0 := by
  unfold constrain
  split_ifs <;> omega

theorem mapA_interp (a : Int) : mapA a 0 180 USMIN USMAX = 10 * a + 600 := by
  unfold mapA USMIN USMAX
  have h1 : (a - 0) * (2400 - 600) = (10 * a) * 180 := by ring
  have h2 : (180 : Int) - 0 = 180 := by norm_num
  rw [h1, h2, Int.mul_tdiv_cancel _ (by norm_num)]

/-- The raw angle-to-pulse-width mapping used by `setServoAngle`:
`map(angle, 0, 180, USMIN, USMAX)`. -/
def angleToMicroseconds (angle : Int) : Int := mapA angle 0 180 USMIN USMAX

theorem setServoAngle_eq (channel : Nat) (angle : Int) :
    setServoAngle channel angle =
      (channel, angleToMicroseconds (constrain angle 0 180)) := rfl

/-! ### Branch lemmas for `processCommand` -/

theorem processCommand_accept (pX pY : Int) (s : String)
    (hx : 0 ≤ xIndexOf (trimA s.data)) (hy : 0 ≤ yIndexOf (trimA s.data)) :
    processCommand pX pY s =
      { posX := constrain (toIntA (xField (trimA s.data))) 0 180
        posY := constrain (toIntA (yField (trimA s.data))) 0 180
        writes :=
          [setServoAngle SERVO_X_CHANNEL
            (constrain (toIntA (xField (trimA s.data))) 0 180),
           setServoAngle SERVO_Y_CHANNEL
            (constrain (toIntA (yField (trimA s.data))) 0 180)]
        output := "OK X:" ++ toString (constrain (toIntA (xField (trimA s.data))) 0 180)
          ++ " Y:" ++ toString (constrain (toIntA (yField (trimA s.data))) 0 180) } := by
  unfold processCommand
  rw [if_pos ⟨hx, hy⟩]

theorem processCommand_reject (pX pY : Int) (s : String)
    (h : ¬ (0 ≤ xIndexOf (trimA s.data) ∧ 0 ≤ yIndexOf (trimA s.data))) :
    processCommand pX pY s =
      { posX := pX, posY := pY, writes := []
        output := "ERROR: Invalid command format" } := by
  unfold processCommand
  rw [if_neg h]

/-! ### C9: the dispatch operation re-clamps, so every pulse width written to
the driver is within the calibration range -/

/-- C9: for every channel and every integer angle argument (also out of
`[0, 180]`), the pulse width that `setServoAngle` passes to
`pwm.writeMicroseconds` lies in `[600, 2400]`, because `setServoAngle`
constrains the angle itself before mapping. -/
theorem dispatch_pulse_in_range (channel : Nat) (angle : Int) :
    600 ≤ (setServoAngle channel angle).2 ∧ (setServoAngle channel angle).2 ≤ 2400 := by
  rw [setServoAngle_eq]
  unfold angleToMicroseconds
  rw [mapA_interp]
  have h := constrain_mem angle
  omega

/-! ### C6: endpoints and monotonicity of the angle-to-pulse-width mapping -/

/-- C6: the angle-to-pulse-width mapping sends 0 to 600 and 180 to 2400, and
is monotone non-decreasing on the domain `[0, 180]`. -/
theorem mapping_monotone (a b : Int) (h0 : 0 ≤ a) (hab : a ≤ b) (hb : b ≤ 180) :
    angleToMicroseconds 0 = 600 ∧ angleToMicroseconds 180 = 2400 ∧
      angleToMicroseconds a ≤ angleToMicroseconds b := by
  unfold angleToMicroseconds
  simp only [mapA_interp]
  omega

/-- Witness for C6 at the concrete pair `a = 0`, `b = 180`. -/
theorem mapping_monotone_witness :
    ((0 : Int) ≤ 0 ∧ (0 : Int) ≤ 180 ∧ (180 : Int) ≤ 180) ∧
      (angleToMicroseconds 0 = 600 ∧ angleToMicroseconds 180 = 2400 ∧
        angleToMicroseconds 0 ≤ angleToMicroseconds 180) :=
  ⟨by decide, mapping_monotone 0 180 (by decide) (by decide) (by decide)⟩

/-! ### C3: the `"X:90 Y:45\n"` scenario -/

set_option maxRecDepth 4000 in
/-- C3 counterexample: the claimed write of 1200 microseconds to channel 1
never happens on input `"X:90 Y:45\n"`; Arduino's `map(45, 0, 180, 600, 2400)`
is 1050, not 1200. -/
theorem scenario_x90_y45_not_1200 :
    ((1 : Nat), (1200 : Int)) ∉ (processCommand 90 90 "X:90 Y:45\n").writes := by
  decide

set_option maxRecDepth 4000 in
/-- C3 amended: processing `"X:90 Y:45\n"` emits `OK X:90 Y:45`, writes
1500 microseconds to channel 0 and 1050 microseconds to channel 1. -/
theorem scenario_x90_y45_result :
    processCommand 90 90 "X:90 Y:45\n" =
      { posX := 90, posY := 45, writes := [(0, 1500), (1, 1050)]
        output := "OK X:90 Y:45" } := by
  decide

/-! ### C7: the byte-received handler -/

/-- C7 counterexample: after the handler receives the line terminator on an
empty buffer, the buffer is `"\n"`, not empty — `serialEvent` appends the
newline byte to `inputString` before testing it. -/
theorem newline_appended_counterexample :
    (serialEventChar
      { inputString := "", stringComplete := false, posX := 90, posY := 90 }
      '\n').inputString ≠ "" := by
  decide

/-- C7 amended: the byte-received handler appends every received byte to the
buffer, including the terminator `'\n'`; on `'\n'` it additionally marks the
buffer as a completed line; the handler never clears the buffer — only the
consumer (`loop`) clears it, after processing, when the completed-line flag
is set. -/
theorem serial_receiver_behavior (s : MachineState) (c : Char) :
    (serialEventChar s c).inputString = s.inputString.push c ∧
    (serialEventChar s c).stringComplete = (c == '\n' || s.stringComplete) ∧
    (serialEventChar s c).posX = s.posX ∧
    (serialEventChar s c).posY = s.posY ∧
    (if s.stringComplete then
        (loopIter s).inputString = "" ∧ (loopIter s).stringComplete = false
      else loopIter s = s) := by
  by_cases hc : c = '\n' <;> by_cases hs : s.stringComplete <;>
    simp [serialEventChar, loopIter, hc, hs]

end TargetPainter

namespace TargetPainter

/-! ### Occurrence of a marker in a line -/

theorem startsWithL_iff (pat : List Char) :
    ∀ l, startsWithL pat l = true ↔ ∃ t, l = pat ++ t := by
  induction pat with
  | nil => intro l; simp [startsWithL]
  | cons p ps ih =>
    intro l
    cases l with
    | nil => simp [startsWithL]
    | cons c cs =>
      simp only [startsWithL, Bool.and_eq_true, beq_iff_eq, ih, List.cons_append]
      constructor
      · rintro ⟨rfl, t, rfl⟩
        exact ⟨t, rfl⟩
      · rintro ⟨t, ht⟩
        injection ht with h1 h2
        exact ⟨h1.symm, t, h2⟩

theorem listIndexOf_nonneg_iff (pat : List Char) :
    ∀ (l : List Char) (i : Nat),
      0 ≤ listIndexOf pat l i ↔ ∃ pre post, l = pre ++ pat ++ post := by
  intro l
  induction l with
  | nil =>
    intro i
    constructor
    · intro h
      by_cases hs : startsWithL pat [] = true
      · obtain ⟨t, ht⟩ := (startsWithL_iff pat []).1 hs
        have hp : pat = [] ∧ t = [] := List.append_eq_nil.1 ht.symm
        exact ⟨[], [], by simp [hp.1]⟩
      · unfold listIndexOf at h
        rw [if_neg hs] at h
        omega
    · rintro ⟨pre, post, hl⟩
      have h1 : pre = [] ∧ pat ++ post = [] := List.append_eq_nil.1 (by simpa using hl.symm)
      have h2 : pat = [] := (List.append_eq_nil.1 h1.2).1
      have hs : startsWithL pat [] = true := (startsWithL_iff pat []).2 ⟨[], by simp [h2]⟩
      unfold listIndexOf
      rw [if_pos hs]
      exact Int.natCast_nonneg i
  | cons c cs ih =>
    intro i
    by_cases hs : startsWithL pat (c :: cs) = true
    · obtain ⟨t, ht⟩ := (startsWithL_iff _ _).1 hs
      unfold listIndexOf
      rw [if_pos hs]
      constructor
      · intro _
        exact ⟨[], t, by simpa using ht⟩
      · intro _
        exact Int.natCast_nonneg i
    · unfold listIndexOf
      rw [if_neg hs, ih (i + 1)]
      constructor
      · rintro ⟨pre, post, hl⟩
        exact ⟨c :: pre, post, by simp [hl]⟩
      · rintro ⟨pre, post, hl⟩
        cases pre with
        | nil =>
          exact absurd ((startsWithL_iff _ _).2 ⟨post, by simpa using hl⟩) hs
        | cons p pre' =>
          simp only [List.cons_append] at hl
          injection hl with h1 h2
          exact ⟨pre', post, h2⟩

theorem occursIn_iff (pat l : List Char) :
    occursIn pat l ↔ ∃ pre post, l = pre ++ pat ++ post :=
  listIndexOf_nonneg_iff pat l 0

theorem exists_append_dropWhile (p : Char → Bool) :
    ∀ l : List Char, ∃ a, l = a ++ l.dropWhile p := by
  intro l
  induction l with
  | nil => exact ⟨[], rfl⟩
  | cons c t ih =>
    by_cases h : p c = true
    · obtain ⟨a, ha⟩ := ih
      refine ⟨c :: a, ?_⟩
      rw [List.dropWhile_cons, if_pos h, List.cons_append]
      exact congrArg (c :: ·) ha
    · refine ⟨[], ?_⟩
      rw [List.dropWhile_cons, if_neg h]
      simp

theorem trimA_infix (l : List Char) : ∃ a b, l = a ++ trimA l ++ b := by
  obtain ⟨a, ha⟩ := exists_append_dropWhile isspaceC l
  obtain ⟨b, hb⟩ := exists_append_dropWhile isspaceC (l.dropWhile isspaceC).reverse
  refine ⟨a, b.reverse, ?_⟩
  have key : l.dropWhile isspaceC =
      ((l.dropWhile isspaceC).reverse.dropWhile isspaceC).reverse ++ b.reverse := by
    calc l.dropWhile isspaceC
        = (l.dropWhile isspaceC).reverse.reverse := (List.reverse_reverse _).symm
      _ = (b ++ (l.dropWhile isspaceC).reverse.dropWhile isspaceC).reverse := by
          rw [← hb]
      _ = ((l.dropWhile isspaceC).reverse.dropWhile isspaceC).reverse ++ b.reverse :=
          List.reverse_append _ _
  calc l = a ++ l.dropWhile isspaceC := ha
    _ = a ++ (((l.dropWhile isspaceC).reverse.dropWhile isspaceC).reverse ++ b.reverse) := by
        rw [← key]
    _ = a ++ trimA l ++ b.reverse := by
        unfold trimA
        rw [List.append_assoc]

theorem occursIn_of_trim {pat l : List Char} (h : occursIn pat (trimA l)) :
    occursIn pat l := by
  rw [occursIn_iff] at h ⊢
  obtain ⟨pre, post, hp⟩ := h
  obtain ⟨a, b, hl⟩ := trimA_infix l
  exact ⟨a ++ pre, post ++ b, by rw [hl, hp]; simp [List.append_assoc]⟩

/-! ### C2: a line missing either marker is rejected without effect -/

/-- C2: if the marker `X:` or the marker `Y:` does not occur in the line,
`processCommand` leaves both positions unchanged, issues no
`pwm.writeMicroseconds` call, and prints exactly
`ERROR: Invalid command format`. -/
theorem missing_marker_rejected (pX pY : Int) (s : String)
    (h : ¬ occursIn ['X', ':'] s.data ∨ ¬ occursIn ['Y', ':'] s.data) :
    processCommand pX pY s =
      { posX := pX, posY := pY, writes := []
        output := "ERROR: Invalid command format" } := by
  apply processCommand_reject
  rintro ⟨hx, hy⟩
  rcases h with h | h
  · exact h (occursIn_of_trim hx)
  · exact h (occursIn_of_trim hy)

/-- Witness for C2 on the line `"garbage\n"`. -/
theorem missing_marker_rejected_witness :
    (¬ occursIn ['X', ':'] ("garbage\n" : String).data ∨
      ¬ occursIn ['Y', ':'] ("garbage\n" : String).data) ∧
    processCommand 12 34 "garbage\n" =
      { posX := 12, posY := 34, writes := []
        output := "ERROR: Invalid command format" } :=
  ⟨by decide, missing_marker_rejected 12 34 "garbage\n" (by decide)⟩

end TargetPainter

namespace TargetPainter

/-! ### Digit and `toInt` lemmas -/

theorem isspaceC_eq_false_of_isDigit {c : Char} (h : c.isDigit = true) :
    isspaceC c = false := by
  cases hsp : isspaceC c with
  | false => rfl
  | true =>
    exfalso
    simp only [isspaceC, Bool.or_eq_true, beq_iff_eq] at hsp
    rcases hsp with ((((rfl | rfl) | rfl) | rfl) | rfl) | rfl <;> exact absurd h (by decide)

theorem digitsValAux_of_no_digit {m : List Char} (h : ∀ c ∈ m, c.isDigit = false)
    (acc : Nat) : digitsValAux m acc = acc := by
  cases m with
  | nil => rfl
  | cons c rest =>
    have hc := h c (List.mem_cons_self c rest)
    simp [digitsValAux, hc]

theorem toIntA_of_no_digit {l : List Char} (h : ∀ c ∈ l, c.isDigit = false) :
    toIntA l = 0 := by
  have hsub : ∀ c ∈ l.dropWhile isspaceC, c.isDigit = false := fun c hc =>
    h c (List.dropWhile_subset _ hc)
  unfold toIntA
  cases hm : l.dropWhile isspaceC with
  | nil => simp
  | cons c rest =>
    rw [hm] at hsub
    show (if c = '-' then -(digitsValAux rest 0 : Int)
      else if c = '+' then (digitsValAux rest 0 : Int)
      else (digitsValAux (c :: rest) 0 : Int)) = 0
    have hrest : ∀ x ∈ rest, x.isDigit = false := fun x hx =>
      hsub x (List.mem_cons_of_mem c hx)
    by_cases h1 : c = '-'
    · simp [h1, digitsValAux_of_no_digit hrest]
    · by_cases h2 : c = '+'
      · simp [h1, h2, digitsValAux_of_no_digit hrest]
      · simp [h1, h2, digitsValAux_of_no_digit hsub]

theorem uint32_lt (i : Int) : uint32 i < 4294967296 := by
  unfold uint32
  omega

/-! ### C4: out-of-range values are saturated, not rejected -/

set_option maxRecDepth 4000 in
/-- C4: on any accepted line, a parsed value above 180 is saturated to 180 and
a parsed value below 0 is saturated to 0, for both axes, and in particular
`"X:999 Y:-5\n"` yields `OK X:180 Y:0` with positions 180 and 0. -/
theorem out_of_range_clamped (pX pY : Int) (s : String)
    (hx : 0 ≤ xIndexOf (trimA s.data)) (hy : 0 ≤ yIndexOf (trimA s.data)) :
    (180 < toIntA (xField (trimA s.data)) → (processCommand pX pY s).posX = 180) ∧
    (toIntA (xField (trimA s.data)) < 0 → (processCommand pX pY s).posX = 0) ∧
    (180 < toIntA (yField (trimA s.data)) → (processCommand pX pY s).posY = 180) ∧
    (toIntA (yField (trimA s.data)) < 0 → (processCommand pX pY s).posY = 0) ∧
    processCommand 90 90 "X:999 Y:-5\n" =
      { posX := 180, posY := 0, writes := [(0, 2400), (1, 600)]
        output := "OK X:180 Y:0" } := by
  rw [processCommand_accept pX pY s hx hy]
  exact ⟨fun h => constrain_of_gt h, fun h => constrain_of_lt h,
    fun h => constrain_of_gt h, fun h => constrain_of_lt h, by decide⟩

/-- Witness for C4 on `"X:999 Y:-5\n"` from the startup position `(90, 90)`. -/
theorem out_of_range_clamped_witness :
    (0 ≤ xIndexOf (trimA ("X:999 Y:-5\n" : String).data) ∧
      0 ≤ yIndexOf (trimA ("X:999 Y:-5\n" : String).data)) ∧
    processCommand 90 90 "X:999 Y:-5\n" =
      { posX := 180, posY := 0, writes := [(0, 2400), (1, 600)]
        output := "OK X:180 Y:0" } :=
  ⟨by decide,
    (out_of_range_clamped 90 90 "X:999 Y:-5\n" (by decide) (by decide)).2.2.2.2⟩

/-! ### C5: a non-numeric value field parses as zero and is dispatched -/

/-- C5: on any accepted line, a value field (X or Y) that contains no digit at
all makes `toInt` yield 0 for that field; the command is not rejected: the
affected position becomes 0, both writes still happen, and the confirmation
line reports 0 for the affected axis. -/
theorem nonnumeric_field_zero (pX pY : Int) (s : String)
    (hx : 0 ≤ xIndexOf (trimA s.data)) (hy : 0 ≤ yIndexOf (trimA s.data)) :
    ((∀ c ∈ xField (trimA s.data), c.isDigit = false) →
      toIntA (xField (trimA s.data)) = 0 ∧
      (processCommand pX pY s).posX = 0 ∧
      (processCommand pX pY s).writes =
        [setServoAngle SERVO_X_CHANNEL 0,
         setServoAngle SERVO_Y_CHANNEL (constrain (toIntA (yField (trimA s.data))) 0 180)] ∧
      (processCommand pX pY s).output =
        "OK X:0 Y:" ++ toString (constrain (toIntA (yField (trimA s.data))) 0 180)) ∧
    ((∀ c ∈ yField (trimA s.data), c.isDigit = false) →
      toIntA (yField (trimA s.data)) = 0 ∧
      (processCommand pX pY s).posY = 0 ∧
      (processCommand pX pY s).writes =
        [setServoAngle SERVO_X_CHANNEL (constrain (toIntA (xField (trimA s.data))) 0 180),
         setServoAngle SERVO_Y_CHANNEL 0] ∧
      (processCommand pX pY s).output =
        "OK X:" ++ toString (constrain (toIntA (xField (trimA s.data))) 0 180) ++ " Y:0") := by
  have hc0 : constrain (0 : Int) 0 180 = 0 := by decide
  rw [processCommand_accept pX pY s hx hy]
  constructor
  · intro hnd
    have h0 : toIntA (xField (trimA s.data)) = 0 := toIntA_of_no_digit hnd
    refine ⟨h0, ?_, ?_, ?_⟩
    · show constrain (toIntA (xField (trimA s.data))) 0 180 = 0
      rw [h0, hc0]
    · show [setServoAngle SERVO_X_CHANNEL (constrain (toIntA (xField (trimA s.data))) 0 180),
        setServoAngle SERVO_Y_CHANNEL (constrain (toIntA (yField (trimA s.data))) 0 180)] = _
      rw [h0, hc0]
    · show "OK X:" ++ toString (constrain (toIntA (xField (trimA s.data))) 0 180)
        ++ " Y:" ++ toString (constrain (toIntA (yField (trimA s.data))) 0 180) = _
      rw [h0, hc0]
      have hpre : ("OK X:" ++ toString (0 : Int) ++ " Y:" : String) = "OK X:0 Y:" := by decide
      rw [hpre]
  · intro hnd
    have h0 : toIntA (yField (trimA s.data)) = 0 := toIntA_of_no_digit hnd
    refine ⟨h0, ?_, ?_, ?_⟩
    · show constrain (toIntA (yField (trimA s.data))) 0 180 = 0
      rw [h0, hc0]
    · show [setServoAngle SERVO_X_CHANNEL (constrain (toIntA (xField (trimA s.data))) 0 180),
        setServoAngle SERVO_Y_CHANNEL (constrain (toIntA (yField (trimA s.data))) 0 180)] = _
      rw [h0, hc0]
    · show "OK X:" ++ toString (constrain (toIntA (xField (trimA s.data))) 0 180)
        ++ " Y:" ++ toString (constrain (toIntA (yField (trimA s.data))) 0 180) = _
      rw [h0, hc0]
      have hz : toString (0 : Int) = "0" := rfl
      rw [hz]
      apply String.ext
      simp [String.data_append, List.append_assoc]

/-- Witness for C5: the X half on `"X:abc Y:45"` and the Y half on
`"X:90 Y:abc"`. -/
theorem nonnumeric_field_zero_witness :
    (0 ≤ xIndexOf (trimA ("X:abc Y:45" : String).data) ∧
      0 ≤ yIndexOf (trimA ("X:abc Y:45" : String).data) ∧
      (∀ c ∈ xField (trimA ("X:abc Y:45" : String).data), c.isDigit = false)) ∧
    (toIntA (xField (trimA ("X:abc Y:45" : String).data)) = 0 ∧
      (processCommand 90 90 "X:abc Y:45").posX = 0) ∧
    (0 ≤ xIndexOf (trimA ("X:90 Y:abc" : String).data) ∧
      0 ≤ yIndexOf (trimA ("X:90 Y:abc" : String).data) ∧
      (∀ c ∈ yField (trimA ("X:90 Y:abc" : String).data), c.isDigit = false)) ∧
    (toIntA (yField (trimA ("X:90 Y:abc" : String).data)) = 0 ∧
      (processCommand 90 90 "X:90 Y:abc").posY = 0 ∧
      (processCommand 90 90 "X:90 Y:abc").output =
        "OK X:" ++ toString
          (constrain (toIntA (xField (trimA ("X:90 Y:abc" : String).data))) 0 180) ++ " Y:0") :=
  ⟨by decide,
   ⟨((nonnumeric_field_zero 90 90 "X:abc Y:45" (by decide) (by decide)).1 (by decide)).1,
    ((nonnumeric_field_zero 90 90 "X:abc Y:45" (by decide) (by decide)).1 (by decide)).2.1⟩,
   by decide,
   ⟨((nonnumeric_field_zero 90 90 "X:90 Y:abc" (by decide) (by decide)).2 (by decide)).1,
    ((nonnumeric_field_zero 90 90 "X:90 Y:abc" (by decide) (by decide)).2 (by decide)).2.1,
    ((nonnumeric_field_zero 90 90 "X:90 Y:abc" (by decide) (by decide)).2 (by decide)).2.2.2⟩⟩

end TargetPainter

namespace TargetPainter

/-! ### C10: marker order is not enforced; an unbounded X field runs to the
end of the trimmed line -/

set_option maxRecDepth 4000 in
/-- C10: any trimmed line containing both markers is accepted and dispatched,
whatever the relative order of the markers; when no space follows the X value
the X field extends to the end of the trimmed line; in particular
`"Y:45 X:90"` is processed with X = 90 and Y = 45. -/
theorem marker_order_free (pX pY : Int) (s : String)
    (hx : 0 ≤ xIndexOf (trimA s.data)) (hy : 0 ≤ yIndexOf (trimA s.data)) :
    ((processCommand pX pY s).output =
        "OK X:" ++ toString (constrain (toIntA (xField (trimA s.data))) 0 180) ++
          " Y:" ++ toString (constrain (toIntA (yField (trimA s.data))) 0 180) ∧
      (processCommand pX pY s).writes =
        [setServoAngle SERVO_X_CHANNEL (constrain (toIntA (xField (trimA s.data))) 0 180),
         setServoAngle SERVO_Y_CHANNEL (constrain (toIntA (yField (trimA s.data))) 0 180)]) ∧
    (charIndexFrom ' ' (trimA s.data) (uint32 (xIndexOf (trimA s.data) + 2)) = -1 ∧
        (trimA s.data).length < 4294967296 →
      xField (trimA s.data) = (trimA s.data).drop (uint32 (xIndexOf (trimA s.data) + 2))) ∧
    processCommand 90 90 "Y:45 X:90" =
      { posX := 90, posY := 45, writes := [(0, 1500), (1, 1050)]
        output := "OK X:90 Y:45" } := by
  rw [processCommand_accept pX pY s hx hy]
  refine ⟨⟨rfl, rfl⟩, ?_, by decide⟩
  rintro ⟨hend, hlen⟩
  unfold xField
  rw [hend]
  have hm1 : uint32 (-1) = 4294967295 := by decide
  rw [hm1]
  simp only [substringA]
  have hub := uint32_lt (xIndexOf (trimA s.data) + 2)
  have hswap : ¬ uint32 (xIndexOf (trimA s.data) + 2) > 4294967295 := by omega
  rw [if_neg hswap, if_neg hswap]
  by_cases hge : uint32 (xIndexOf (trimA s.data) + 2) ≥ (trimA s.data).length
  · rw [if_pos hge, List.drop_eq_nil_of_le hge]
  · rw [if_neg hge, Nat.min_eq_right (by omega), List.take_length]

/-- Witness for C10 on `"Y:45 X:90"`. -/
theorem marker_order_free_witness :
    (0 ≤ xIndexOf (trimA ("Y:45 X:90" : String).data) ∧
      0 ≤ yIndexOf (trimA ("Y:45 X:90" : String).data)) ∧
    xField (trimA ("Y:45 X:90" : String).data) =
      (trimA ("Y:45 X:90" : String).data).drop
        (uint32 (xIndexOf (trimA ("Y:45 X:90" : String).data) + 2)) ∧
    processCommand 90 90 "Y:45 X:90" =
      { posX := 90, posY := 45, writes := [(0, 1500), (1, 1050)]
        output := "OK X:90 Y:45" } :=
  ⟨by decide,
   (marker_order_free 90 90 "Y:45 X:90" (by decide) (by decide)).2.1 (by decide),
   (marker_order_free 90 90 "Y:45 X:90" (by decide) (by decide)).2.2⟩

/-! ### C8: the position state always reflects the last accepted command -/

theorem step_eq (p : Int × Int) (l : String) :
    step p l = if accepts l then target l else p := by
  by_cases h : 0 ≤ xIndexOf (trimA l.data) ∧ 0 ≤ yIndexOf (trimA l.data)
  · have ha : accepts l = true := decide_eq_true h
    unfold step
    rw [processCommand_accept p.1 p.2 l h.1 h.2, if_pos ha]
    rfl
  · have ha : accepts l = false := decide_eq_false h
    unfold step
    rw [processCommand_reject p.1 p.2 l h, if_neg (by simp [ha])]

/-- C8: the two positions start at `(90, 90)`; after any sequence of processed
lines they equal the clamped values of the last accepted line (or `(90, 90)`
if no line was accepted), and both always lie in `[0, 180]`. -/
theorem axis_position_invariant (lines : List String) :
    run lines = lastTarget lines ∧
    run [] = (90, 90) ∧
    0 ≤ (run lines).1 ∧ (run lines).1 ≤ 180 ∧
    0 ≤ (run lines).2 ∧ (run lines).2 ≤ 180 := by
  have key : ∀ (L : List String) (p : Int × Int),
      L.foldl step p = L.foldl (fun q l => if accepts l then target l else q) p := by
    intro L
    induction L with
    | nil => intro p; rfl
    | cons l L ih =>
      intro p
      rw [List.foldl_cons, List.foldl_cons, step_eq]
      exact ih _
  have range : ∀ (L : List String) (p : Int × Int),
      0 ≤ p.1 → p.1 ≤ 180 → 0 ≤ p.2 → p.2 ≤ 180 →
      0 ≤ (L.foldl step p).1 ∧ (L.foldl step p).1 ≤ 180 ∧
        0 ≤ (L.foldl step p).2 ∧ (L.foldl step p).2 ≤ 180 := by
    intro L
    induction L with
    | nil => intro p h1 h2 h3 h4; exact ⟨h1, h2, h3, h4⟩
    | cons l L ih =>
      intro p h1 h2 h3 h4
      rw [List.foldl_cons, step_eq]
      by_cases h : accepts l = true
      · rw [if_pos h]
        exact ih (target l) (constrain_mem _).1 (constrain_mem _).2
          (constrain_mem _).1 (constrain_mem _).2
      · rw [if_neg h]
        exact ih p h1 h2 h3 h4
  obtain ⟨r1, r2, r3, r4⟩ := range lines (90, 90) (by norm_num) (by norm_num)
    (by norm_num) (by norm_num)
  exact ⟨key lines (90, 90), rfl, r1, r2, r3, r4⟩

end TargetPainter

namespace TargetPainter

/-! ### Parsing the canonical line `X:<digits> Y:<digits>` -/

theorem dropWhile_cons_of_false {c : Char} {l : List Char} (h : isspaceC c = false) :
    (c :: l).dropWhile isspaceC = c :: l := by
  rw [List.dropWhile_cons, if_neg (by simp [h])]

theorem trimA_eq_self_of {l : List Char} (h1 : l.dropWhile isspaceC = l)
    (h2 : l.reverse.dropWhile isspaceC = l.reverse) : trimA l = l := by
  unfold trimA
  rw [h1, h2, List.reverse_reverse]

theorem canonical_trim (da db : List Char) (hb : ∀ c ∈ db, c.isDigit = true)
    (hdb : db ≠ []) :
    trimA ('X' :: ':' :: (da ++ ' ' :: 'Y' :: ':' :: db)) =
      'X' :: ':' :: (da ++ ' ' :: 'Y' :: ':' :: db) := by
  obtain ⟨db', d, rfl⟩ : ∃ db' d, db = db' ++ [d] := by
    rcases List.eq_nil_or_concat db with h | ⟨db', d, h⟩
    · exact absurd h hdb
    · exact ⟨db', d, by rw [h, List.concat_eq_append]⟩
  have hd : d.isDigit = true := hb d (by simp)
  have hfront : 'X' :: ':' :: (da ++ ' ' :: 'Y' :: ':' :: (db' ++ [d]))
      = ('X' :: ':' :: (da ++ ' ' :: 'Y' :: ':' :: db')) ++ [d] := by
    simp
  apply trimA_eq_self_of
  · exact dropWhile_cons_of_false (by decide)
  · rw [hfront, List.reverse_append]
    exact dropWhile_cons_of_false (isspaceC_eq_false_of_isDigit hd)

theorem canonical_xIndexOf (rest : List Char) : xIndexOf ('X' :: ':' :: rest) = 0 := by
  simp [xIndexOf, listIndexOf, startsWithL]

theorem listIndexOf_cons_skip {ch : Char} (p : List Char) :
    ∀ (l1 l2 : List Char) (i : Nat), ch ∉ l1 →
      listIndexOf (ch :: p) (l1 ++ l2) i = listIndexOf (ch :: p) l2 (i + l1.length) := by
  intro l1
  induction l1 with
  | nil => intro l2 i _; simp
  | cons c rest ih =>
    intro l2 i h
    have hne : ch ≠ c := fun he => h (he ▸ List.mem_cons_self c rest)
    have hc : ¬ (startsWithL (ch :: p) (c :: (rest ++ l2)) = true) := by
      simp only [startsWithL, Bool.and_eq_true, beq_iff_eq]
      rintro ⟨h1, -⟩
      exact hne h1
    rw [List.cons_append]
    simp only [listIndexOf]
    rw [if_neg hc, ih l2 (i + 1) (fun hm => h (List.mem_cons_of_mem c hm))]
    congr 1
    simp [List.length_cons]
    omega

theorem canonical_yIndexOf (da db : List Char) (ha : ∀ c ∈ da, c.isDigit = true) :
    yIndexOf ('X' :: ':' :: (da ++ ' ' :: 'Y' :: ':' :: db))
      = ((3 + da.length : Nat) : Int) := by
  have hsplit : 'X' :: ':' :: (da ++ ' ' :: 'Y' :: ':' :: db)
      = ('X' :: ':' :: (da ++ [' '])) ++ ('Y' :: ':' :: db) := by
    simp
  have hnotin : 'Y' ∉ 'X' :: ':' :: (da ++ [' ']) := by
    intro hm
    simp only [List.mem_cons, List.mem_append, List.mem_singleton] at hm
    rcases hm with h | h | h | h
    · exact absurd h (by decide)
    · exact absurd h (by decide)
    · exact absurd (ha _ h) (by decide)
    · exact absurd h (by decide)
  unfold yIndexOf
  rw [hsplit, listIndexOf_cons_skip [':'] ('X' :: ':' :: (da ++ [' '])) ('Y' :: ':' :: db) 0 hnotin]
  simp [listIndexOf, startsWithL, List.length_cons, List.length_append]
  omega

theorem charIndexFromAux_skip (ch : Char) :
    ∀ (l1 l2 : List Char) (i : Nat), ch ∉ l1 →
      charIndexFromAux ch (l1 ++ l2) i = charIndexFromAux ch l2 (i + l1.length) := by
  intro l1
  induction l1 with
  | nil => intro l2 i _; simp
  | cons c rest ih =>
    intro l2 i h
    have hne : ¬ ((c == ch) = true) := by
      simp only [beq_iff_eq]
      rintro rfl
      exact h (List.mem_cons_self c rest)
    rw [List.cons_append]
    simp only [charIndexFromAux]
    rw [if_neg hne, ih l2 (i + 1) (fun hm => h (List.mem_cons_of_mem c hm))]
    congr 1
    simp [List.length_cons]
    omega

theorem canonical_xField (da db : List Char) (ha : ∀ c ∈ da, c.isDigit = true)
    (hla : da.length ≤ 3) :
    xField ('X' :: ':' :: (da ++ ' ' :: 'Y' :: ':' :: db)) = da := by
  have hxi := canonical_xIndexOf (da ++ ' ' :: 'Y' :: ':' :: db)
  have hnosp : ' ' ∉ da := fun hm => absurd (ha _ hm) (by decide)
  have hC : charIndexFrom ' ' ('X' :: ':' :: (da ++ ' ' :: 'Y' :: ':' :: db)) 2
      = ((2 + da.length : Nat) : Int) := by
    unfold charIndexFrom
    show charIndexFromAux ' ' (da ++ ' ' :: 'Y' :: ':' :: db) 2 = _
    rw [charIndexFromAux_skip ' ' da (' ' :: 'Y' :: ':' :: db) 2 hnosp]
    simp [charIndexFromAux]
  have hlen : ('X' :: ':' :: (da ++ ' ' :: 'Y' :: ':' :: db)).length
      = da.length + db.length + 5 := by
    simp [List.length_cons, List.length_append]
    omega
  unfold xField
  rw [hxi]
  have h2 : uint32 ((0 : Int) + 2) = 2 := by decide
  rw [h2, hC]
  have h3 : uint32 ((2 + da.length : Nat) : Int) = 2 + da.length := by
    unfold uint32
    omega
  rw [h3]
  simp only [substringA]
  have hswap : ¬ ((2 : Nat) > 2 + da.length) := by omega
  rw [if_neg hswap, if_neg hswap]
  rw [if_neg (by omega : ¬ (2 : Nat) ≥ ('X' :: ':' :: (da ++ ' ' :: 'Y' :: ':' :: db)).length)]
  rw [Nat.min_eq_left (by omega : 2 + da.length ≤ ('X' :: ':' :: (da ++ ' ' :: 'Y' :: ':' :: db)).length)]
  have hsplit : 'X' :: ':' :: (da ++ ' ' :: 'Y' :: ':' :: db)
      = ('X' :: ':' :: da) ++ (' ' :: 'Y' :: ':' :: db) := by
    simp
  rw [hsplit]
  have hdalen : 2 + da.length = ('X' :: ':' :: da).length := by
    simp [List.length_cons]
    omega
  rw [hdalen, List.take_left]
  rfl

theorem canonical_yField (da db : List Char) (ha : ∀ c ∈ da, c.isDigit = true)
    (hla : da.length ≤ 3) (hdb : db ≠ []) :
    yField ('X' :: ':' :: (da ++ ' ' :: 'Y' :: ':' :: db)) = db := by
  have hlen : ('X' :: ':' :: (da ++ ' ' :: 'Y' :: ':' :: db)).length
      = da.length + db.length + 5 := by
    simp [List.length_cons, List.length_append]
    omega
  have hdbpos : 0 < db.length := List.length_pos.2 hdb
  unfold yField
  rw [canonical_yIndexOf da db ha]
  have h5 : uint32 (((3 + da.length : Nat) : Int) + 2) = 5 + da.length := by
    unfold uint32
    omega
  rw [h5]
  simp only [substringA]
  have hswap : ¬ (5 + da.length > ('X' :: ':' :: (da ++ ' ' :: 'Y' :: ':' :: db)).length) := by
    omega
  rw [if_neg hswap, if_neg hswap]
  rw [if_neg (by omega : ¬ 5 + da.length ≥ ('X' :: ':' :: (da ++ ' ' :: 'Y' :: ':' :: db)).length)]
  rw [Nat.min_self, List.take_length]
  have hsplit : 'X' :: ':' :: (da ++ ' ' :: 'Y' :: ':' :: db)
      = ('X' :: ':' :: (da ++ [' ', 'Y', ':'])) ++ db := by
    simp
  rw [hsplit]
  have hfrontlen : 5 + da.length = ('X' :: ':' :: (da ++ [' ', 'Y', ':'])).length := by
    simp [List.length_cons, List.length_append]
    omega
  rw [hfrontlen, List.drop_left]

/-- The accept branch of `processCommand` on a canonical line
`X:<da> Y:<db>` with digit-only value fields: both markers are found, the X
field is exactly `da`, and the Y field is exactly `db`. -/
theorem processCommand_canonical (pX pY : Int) (s : String) (da db : List Char)
    (hs : s.data = 'X' :: ':' :: (da ++ ' ' :: 'Y' :: ':' :: db))
    (ha : ∀ c ∈ da, c.isDigit = true) (hb : ∀ c ∈ db, c.isDigit = true)
    (hdb : db ≠ []) (hla : da.length ≤ 3) :
    processCommand pX pY s =
      { posX := constrain (toIntA da) 0 180
        posY := constrain (toIntA db) 0 180
        writes := [setServoAngle SERVO_X_CHANNEL (constrain (toIntA da) 0 180),
                   setServoAngle SERVO_Y_CHANNEL (constrain (toIntA db) 0 180)]
        output := "OK X:" ++ toString (constrain (toIntA da) 0 180)
          ++ " Y:" ++ toString (constrain (toIntA db) 0 180) } := by
  have htrim : trimA s.data = 'X' :: ':' :: (da ++ ' ' :: 'Y' :: ':' :: db) := by
    rw [hs]
    exact canonical_trim da db hb hdb
  have hx : 0 ≤ xIndexOf (trimA s.data) := by
    rw [htrim, canonical_xIndexOf]
  have hy : 0 ≤ yIndexOf (trimA s.data) := by
    rw [htrim, canonical_yIndexOf da db ha]
    exact Int.natCast_nonneg _
  rw [processCommand_accept pX pY s hx hy, htrim,
    canonical_xField da db ha hla, canonical_yField da db ha hla hdb]

end TargetPainter

namespace TargetPainter

set_option maxRecDepth 100000 in
/-- Facts about the decimal representation of every angle in `[0, 180]`:
nonempty, all digits, at most three characters, and parsed back to itself by
`toInt`. Checked by evaluation over the whole domain. -/
theorem repr_digit_facts : ∀ n : Nat, n ≤ 180 →
    ((Nat.repr n).data ≠ [] ∧ (∀ c ∈ (Nat.repr n).data, c.isDigit = true) ∧
      (Nat.repr n).data.length ≤ 3 ∧ toIntA (Nat.repr n).data = (n : Int)) := by
  decide

/-- C1: for every `a, b` in `[0, 180]`, processing the line `X:<a> Y:<b>`
(single space between the fields) prints exactly `OK X:<a> Y:<b>` and leaves
`posX = a` and `posY = b`, from any prior position state. -/
theorem valid_command_ok (a b : Nat) (ha : a ≤ 180) (hb : b ≤ 180) (pX pY : Int) :
    (processCommand pX pY ("X:" ++ toString a ++ " Y:" ++ toString b)).output
        = "OK X:" ++ toString a ++ " Y:" ++ toString b ∧
    (processCommand pX pY ("X:" ++ toString a ++ " Y:" ++ toString b)).posX = (a : Int) ∧
    (processCommand pX pY ("X:" ++ toString a ++ " Y:" ++ toString b)).posY = (b : Int) := by
  obtain ⟨hane, hadig, halen, haval⟩ := repr_digit_facts a ha
  obtain ⟨hbne, hbdig, hblen, hbval⟩ := repr_digit_facts b hb
  have hs : ("X:" ++ toString a ++ " Y:" ++ toString b).data
      = 'X' :: ':' :: ((Nat.repr a).data ++ ' ' :: 'Y' :: ':' :: (Nat.repr b).data) := by
    show ("X:" ++ Nat.repr a ++ " Y:" ++ Nat.repr b).data = _
    simp only [String.data_append]
    simp
  rw [processCommand_canonical pX pY _ (Nat.repr a).data (Nat.repr b).data hs
    hadig hbdig hbne halen]
  rw [haval, hbval]
  have hca : constrain (a : Int) 0 180 = (a : Int) :=
    constrain_of_mem (Int.natCast_nonneg a) (by exact_mod_cast ha)
  have hcb : constrain (b : Int) 0 180 = (b : Int) :=
    constrain_of_mem (Int.natCast_nonneg b) (by exact_mod_cast hb)
  rw [hca, hcb]
  exact ⟨rfl, rfl, rfl⟩

/-- Witness for C1 at `a = 90`, `b = 45`, starting from positions `(7, 7)`. -/
theorem valid_command_ok_witness :
    ((90 : Nat) ≤ 180 ∧ (45 : Nat) ≤ 180) ∧
    ((processCommand 7 7 ("X:" ++ toString (90 : Nat) ++ " Y:" ++ toString (45 : Nat))).output
        = "OK X:" ++ toString (90 : Nat) ++ " Y:" ++ toString (45 : Nat) ∧
      (processCommand 7 7 ("X:" ++ toString (90 : Nat) ++ " Y:" ++ toString (45 : Nat))).posX
        = ((90 : Nat) : Int) ∧
      (processCommand 7 7 ("X:" ++ toString (90 : Nat) ++ " Y:" ++ toString (45 : Nat))).posY
        = ((45 : Nat) : Int)) :=
  ⟨⟨by decide, by decide⟩, valid_command_ok 90 45 (by decide) (by decide) 7 7⟩

end TargetPainter
